import Mathlib

/-!
Verification development for the flower-cache blob proxy.

This file gives a shallow embedding, in Lean 4, of the parts of the
flower-cache source that the specification's claims are about:

* `src/response.ts` — ETag generation and `If-None-Match` handling;
* `src/handler.ts` — the blob request handler (conditional responses,
  the cached-file path with range slicing, and the poison-cleanup step);
* `src/proxy.ts` — `fetchFromServer` with manual redirect following;
* `src/cache.ts` — the metadata table, `updateAccessTime`, `checkCache`,
  `getCacheSize` and `pruneCache`;
* `src/cache-stream.ts` / `src/stream-utils.ts` — the streaming
  hash-and-cache pipeline;
* `src/request-queue.ts` — the in-flight request deduplication map.

JavaScript strings are modelled as `List Char`, byte payloads as
`List Nat`.  SHA-256 itself is provided by the Bun runtime and is not
part of the repository, so the pipeline is parameterised by an abstract
hex-digest function `hashHex : Bytes → Str`.  Upstream HTTP traffic is
modelled by a function from request URL to outcome.  SQLite's
`INSERT OR REPLACE` is modelled as delete-then-append (a replaced row
gets a fresh, maximal rowid), and `ORDER BY last_accessed ASC` as a
stable sort of the rowid-ordered table, which is the order the
`idx_last_accessed` index scan produces (index entries with equal keys
are ordered by rowid).
-/

namespace FlowerCache

/-- JavaScript strings are modelled as lists of characters. -/
abbrev Str := List Char

/-- Byte payloads are modelled as lists of naturals. -/
abbrev Bytes := List Nat

/-! ## JavaScript string primitives used by the source -/

/-- Model of `s.toLowerCase()`. -/
def toLowerStr (s : Str) : Str := s.map Char.toLower

/-- Model of `s.split(",")`: splits at every comma; never returns `[]`. -/
def jsSplitComma : Str → List Str
  | [] => [[]]
  | c :: rest =>
    let r := jsSplitComma rest
    if c = ',' then [] :: r
    else
      match r with
      | [] => [[c]]
      | h :: t => (c :: h) :: t

/-- Model of `s.trim()`: strip whitespace from both ends. -/
def jsTrim (s : Str) : Str :=
  ((s.dropWhile Char.isWhitespace).reverse.dropWhile Char.isWhitespace).reverse

/-- Model of `s.replace(/^W\//, "")`: drop one leading weak-ETag marker. -/
def stripWeak (s : Str) : Str :=
  if s.take 2 = ['W', '/'] then s.drop 2 else s

/-- Decimal digit character for `n < 10` (models JS number rendering). -/
def digitChar : Nat → Char
  | 0 => '0' | 1 => '1' | 2 => '2' | 3 => '3' | 4 => '4'
  | 5 => '5' | 6 => '6' | 7 => '7' | 8 => '8' | _ => '9'

/-- Fuelled decimal rendering (structural recursion; `natDigits` always
supplies enough fuel). -/
def natDigitsAux : Nat → Nat → Str
  | 0, _ => []
  | fuel + 1, n =>
    if n < 10 then [digitChar n]
    else natDigitsAux fuel (n / 10) ++ [digitChar (n % 10)]

/-- Model of `n.toString()` for a non-negative integer: decimal digits. -/
def natDigits (n : Nat) : Str := natDigitsAux (n + 1) n

/-- Model of `parseInt(s, 10)` on a non-empty all-digit capture. -/
def digitsToNat (s : Str) : Nat :=
  s.foldl (fun a c => 10 * a + (c.toNat - 48)) 0

/-- Bytes of a reason string (error responses carry the reason as body). -/
def strBytes (s : Str) : Bytes := s.map Char.toNat

/-! ## `src/response.ts` -/

/-- Model of `generateETag`: the ETag is the quoted digest, `"<sha256>"`. -/
def generateETag (sha256 : Str) : Str := '"' :: sha256 ++ ['"']

/-- Model of `checkIfNoneMatch`: split `If-None-Match` on commas, trim each entry,
strip a weak `W/` marker, and compare against the (normalized) ETag. -/
def checkIfNoneMatch (ifNoneMatch : Option Str) (etag : Str) : Bool :=
  match ifNoneMatch with
  | none => false
  | some inm =>
    let etags := (jsSplitComma inm).map (fun e => stripWeak (jsTrim e))
    let normalizedETag := stripWeak etag
    etags.any (fun e => e == normalizedETag || e == etag)

/-- An HTTP response: status, body bytes, and headers in emission order. -/
structure RespM where
  status : Nat
  body : Bytes
  headers : List (Str × Str)
  deriving DecidableEq, Repr

/-- Header `Cache-Control: public, max-age=31536000, immutable`. -/
def cacheControlHeaders : List (Str × Str) :=
  [("Cache-Control".toList, "public, max-age=31536000, immutable".toList)]

/-- Model of `addCorsHeaders`: set `Access-Control-Allow-Origin: *`. -/
def addCorsHeaders (r : RespM) : RespM :=
  { r with headers := r.headers ++ [("Access-Control-Allow-Origin".toList, "*".toList)] }

/-- Model of `createNotModifiedResponse`: 304 with ETag and immutable cache control. -/
def createNotModifiedResponse (etag : Str) : RespM :=
  addCorsHeaders ⟨304, [], ("ETag".toList, etag) :: cacheControlHeaders⟩

/-- Model of `createErrorResponse`: the reason is both the body and `X-Reason`. -/
def createErrorResponse (status : Nat) (reason : Str) : RespM :=
  addCorsHeaders ⟨status, strBytes reason, [("X-Reason".toList, reason)]⟩

/-! ## Range parsing in `src/handler.ts`

`handleCachedFile` parses the `Range` header with
`rangeHeader.match(/bytes=(\d+)-(\d*)/)`.  JavaScript `match` with an
unanchored regex searches every position; at a position the pattern
matches when the literal `bytes=` is followed by a non-empty digit run,
then `-`, then a (possibly empty) digit run.  An empty second capture is
falsy, so it is reported as `none`. -/

/-- Longest digit run at the front of a string. -/
def takeDigits (s : Str) : Str := s.takeWhile Char.isDigit

/-- Try to match `bytes=(\d+)-(\d*)` at the start of `s`: the first
capture is `takeDigits (s.drop 6)`, the second the digit run after the
dash (empty second capture is falsy, hence `none`). -/
def matchRangeAt (s : Str) : Option (Nat × Option Nat) :=
  if s.take 6 = "bytes=".toList then
    if takeDigits (s.drop 6) = [] then none
    else
      match (s.drop 6).drop (takeDigits (s.drop 6)).length with
      | '-' :: rest3 =>
        some (digitsToNat (takeDigits (s.drop 6)),
          if takeDigits rest3 = [] then none
          else some (digitsToNat (takeDigits rest3)))
      | _ => none
  else none

/-- Model of `rangeHeader.match(/bytes=(\d+)-(\d*)/)`: first position,
left to right, where the pattern matches. -/
def jsMatchRange : Str → Option (Nat × Option Nat)
  | [] => none
  | c :: rest =>
    match matchRangeAt (c :: rest) with
    | some r => some r
    | none => jsMatchRange rest

/-! ## `src/handler.ts` — serving a cached file -/

/-- Success headers shared by the cached-file branches:
`Content-Type`, `Content-Length`, `Accept-Ranges: bytes`, `ETag`,
immutable cache control. -/
def successHeaders (contentType : Str) (contentLength : Nat) (etag : Str) :
    List (Str × Str) :=
  [("Content-Type".toList, contentType),
   ("Content-Length".toList, natDigits contentLength),
   ("Accept-Ranges".toList, "bytes".toList),
   ("ETag".toList, etag)] ++ cacheControlHeaders

/-- The `Content-Range: bytes <start>-<end>/<total>` header value. -/
def contentRangeValue (start endB total : Nat) : Str :=
  "bytes ".toList ++ natDigits start ++ '-' :: natDigits endB ++ '/' :: natDigits total

/-- Model of `handleCachedFile`: conditional 304, HEAD, range slicing with 416 on
invalid ranges, and the full-file fallback (also taken when the `Range`
header does not match the pattern). -/
def handleCachedFile (ifNoneMatch : Option Str) (fileBytes : Bytes)
    (contentType : Str) (isHead : Bool) (rangeHeader : Option Str)
    (etag : Str) : RespM :=
  if rangeHeader.isNone && checkIfNoneMatch ifNoneMatch etag then
    createNotModifiedResponse etag
  else
    let size := fileBytes.length
    if isHead then
      addCorsHeaders ⟨200, [], successHeaders contentType size etag⟩
    else
      match rangeHeader with
      | some h =>
        match jsMatchRange h with
        | some (start, endCapture) =>
          let endB := endCapture.getD (size - 1)
          if size ≤ start ∨ size ≤ endB ∨ endB < start then
            createErrorResponse 416 "Range not satisfiable".toList
          else
            let contentLength := endB - start + 1
            addCorsHeaders ⟨206, (fileBytes.drop start).take (endB + 1 - start),
              [("Content-Type".toList, contentType),
               ("Content-Length".toList, natDigits contentLength),
               ("Content-Range".toList, contentRangeValue start endB size),
               ("Accept-Ranges".toList, "bytes".toList),
               ("ETag".toList, etag)] ++ cacheControlHeaders⟩
        | none =>
          addCorsHeaders ⟨200, fileBytes, successHeaders contentType size etag⟩
      | none =>
        addCorsHeaders ⟨200, fileBytes, successHeaders contentType size etag⟩

/-- Model of `handleBlobRequest`, restricted to the parts the claims are about:
the up-front conditional check, then either the cached-file path or the
miss path (abstracted as `missResp`, the response produced by the
dedup/fetch pipeline). -/
def handleBlobRequest (isHead : Bool) (ifNoneMatch rangeHeader : Option Str)
    (sha256 : Str) (cachedBytes : Option Bytes) (contentType : Str)
    (missResp : RespM) : RespM :=
  let etag := generateETag sha256
  if rangeHeader.isNone && checkIfNoneMatch ifNoneMatch etag then
    createNotModifiedResponse etag
  else
    match cachedBytes with
    | some b => handleCachedFile ifNoneMatch b contentType isHead rangeHeader etag
    | none => missResp

/-! ## `src/proxy.ts` — `fetchFromServer`

The upstream network is modelled by `net : Str → FetchOutcome` mapping a
request URL to either a transport error (fetch rejection or abort) or a
response with a status and an optional `Location` header.  In the
source, `AbortError` continues with the next candidate URL and any other
throw reaches the outer `catch`, which also continues, so both are one
`transportError` case.

The source recursion counts `redirectCount` up to `MAX_REDIRECTS`; the
embedding carries the equivalent remaining-follows fuel
`maxRedirects - redirectCount` so the recursion is structural.  The
result is instrumented with the list of URLs passed to `fetch` and the
number of redirects actually followed, so that the claims about fetch
multiplicity can be stated. -/

/-- A modelled upstream HTTP response. -/
structure UpstreamResponse where
  status : Nat
  location : Option Str
  deriving DecidableEq, Repr

/-- Outcome of one `fetch(url)`. -/
inductive FetchOutcome
  | transportError
  | reply (r : UpstreamResponse)
  deriving DecidableEq, Repr

/-- Result of `fetchFromServer`, instrumented with the URLs fetched (in
order) and the number of redirects followed. -/
structure FetchResultT where
  result : Option UpstreamResponse
  fetched : List Str
  follows : Nat
  deriving DecidableEq, Repr

/-- Model of `normalizeServerUrl`: keep an explicit scheme, otherwise try
`https://` then `http://`. -/
def normalizeServerUrl (server : Str) : List Str :=
  if server.take 7 = "http://".toList ∨ server.take 8 = "https://".toList then
    [server]
  else
    ["https://".toList ++ server, "http://".toList ++ server]

/-- Model of `serverUrl.replace(/\/$/, "")`: drop one trailing slash. -/
def trimTrailingSlash (s : Str) : Str :=
  match s.reverse with
  | '/' :: r => r.reverse
  | _ => s

/-- The request URL `serverUrl(without trailing slash) + "/" + sha256 + ext?`. -/
def buildUrl (serverUrl sha256 : Str) (ext : Option Str) : Str :=
  trimTrailingSlash serverUrl ++ '/' :: sha256 ++ ext.getD []

/-- Model of `hay.includes(needle)`: substring containment. -/
def jsIncludes : Str → Str → Bool
  | hay, needle =>
    if needle.isPrefixOf hay then true
    else
      match hay with
      | [] => false
      | _ :: t => jsIncludes t needle

/-- The redirect guard: follow only when a `Location` is present and the
target still contains the requested digest as a substring. -/
def locationKeepsDigest (location : Option Str) (sha256 : Str) : Bool :=
  match location with
  | none => false
  | some loc => jsIncludes loc sha256

/-- The candidate-URL loop of `fetchFromServer`.  `follow` is the
recursive redirect continuation (absent when following one more
redirect would exceed `MAX_REDIRECTS`, in which case the recursive call
returns `null` without fetching). -/
def fetchTryServers (net : Str → FetchOutcome) (sha256 : Str)
    (ext : Option Str) (follow : Option (Str → FetchResultT)) :
    List Str → FetchResultT
  | [] => ⟨none, [], 0⟩
  | serverUrl :: restServers =>
    let url := buildUrl serverUrl sha256 ext
    match net url with
    | .transportError =>
      -- network error or timeout: try the next candidate URL
      let r := fetchTryServers net sha256 ext follow restServers
      ⟨r.result, url :: r.fetched, r.follows⟩
    | .reply resp =>
      if 300 ≤ resp.status ∧ resp.status < 400 ∧
          locationKeepsDigest resp.location sha256 then
        match follow, resp.location with
        | some f, some loc =>
          let r := f loc
          ⟨r.result, url :: r.fetched, r.follows + 1⟩
        | _, _ => ⟨none, [url], 0⟩
      else if (200 ≤ resp.status ∧ resp.status < 300) ∨ resp.status = 206 then
        ⟨some resp, [url], 0⟩
      else if resp.status = 404 then
        let r := fetchTryServers net sha256 ext follow restServers
        ⟨r.result, url :: r.fetched, r.follows⟩
      else
        ⟨none, [url], 0⟩

/-- Model of `fetchFromServer` with the redirect depth expressed as remaining
fuel (`maxRedirects - redirectCount`). -/
def fetchWithFuel (net : Str → FetchOutcome) (sha256 : Str)
    (ext : Option Str) : Nat → Str → FetchResultT
  | 0, server =>
    fetchTryServers net sha256 ext none (normalizeServerUrl server)
  | fuel + 1, server =>
    fetchTryServers net sha256 ext (some (fetchWithFuel net sha256 ext fuel))
      (normalizeServerUrl server)

/-- Model of `fetchFromServer`, instrumented: guard on the redirect count, then
run the candidate-URL loop with the remaining-follows fuel. -/
def fetchFromServerT (net : Str → FetchOutcome) (maxRedirects : Nat)
    (server sha256 : Str) (ext : Option Str) (redirectCount : Nat) :
    FetchResultT :=
  if maxRedirects < redirectCount then ⟨none, [], 0⟩
  else fetchWithFuel net sha256 ext (maxRedirects - redirectCount) server

/-- Model of `fetchFromServer` proper: the response (or `null`). -/
def fetchFromServer (net : Str → FetchOutcome) (maxRedirects : Nat)
    (server sha256 : Str) (ext : Option Str) (redirectCount : Nat) :
    Option UpstreamResponse :=
  (fetchFromServerT net maxRedirects server sha256 ext redirectCount).result

/-! ## `src/cache.ts` — metadata table and blob directory

The SQLite table `cache_metadata` is modelled as a list of rows in rowid
order; `INSERT OR REPLACE` deletes any conflicting row and appends the
new one (fresh maximal rowid).  The blob directory is an association
list from digest to file content.  File deletion can fail (the `catch`
branches in the source); which deletions throw is abstracted by a
`deleteFails` predicate. -/

/-- A row of `cache_metadata(sha256, last_accessed, size, uploaded)`. -/
structure CacheRow where
  sha256 : Str
  lastAccessed : Nat
  size : Nat
  uploaded : Option Nat
  deriving DecidableEq, Repr

/-- The cache store state: blob directory and metadata table. -/
structure CacheState where
  files : List (Str × Bytes)
  db : List CacheRow
  deriving DecidableEq, Repr

/-- Look up a blob file by digest. -/
def lookupFile (files : List (Str × Bytes)) (sha256 : Str) : Option Bytes :=
  (files.find? (fun p => p.1 == sha256)).map (·.2)

/-- Write (or overwrite) a blob file. -/
def setFile (files : List (Str × Bytes)) (sha256 : Str) (content : Bytes) :
    List (Str × Bytes) :=
  files.filter (fun p => !(p.1 == sha256)) ++ [(sha256, content)]

/-- Delete a blob file. -/
def deleteFile (files : List (Str × Bytes)) (sha256 : Str) : List (Str × Bytes) :=
  files.filter (fun p => !(p.1 == sha256))

/-- Model of `SELECT ... WHERE sha256 = ?`. -/
def dbFind (db : List CacheRow) (sha256 : Str) : Option CacheRow :=
  db.find? (fun r => r.sha256 == sha256)

/-- Does a metadata row for the digest exist? -/
def dbHasRow (db : List CacheRow) (sha256 : Str) : Bool :=
  db.any (fun r => r.sha256 == sha256)

/-- Model of `INSERT OR REPLACE`: drop a conflicting row, append with fresh rowid. -/
def dbUpsert (db : List CacheRow) (row : CacheRow) : List CacheRow :=
  db.filter (fun r => !(r.sha256 == row.sha256)) ++ [row]

/-- Model of `DELETE FROM cache_metadata WHERE sha256 = ?`. -/
def dbDelete (db : List CacheRow) (sha256 : Str) : List CacheRow :=
  db.filter (fun r => !(r.sha256 == sha256))

/-- Model of `getCacheSize`: `SELECT COALESCE(SUM(size), 0) FROM cache_metadata`. -/
def getCacheSize (st : CacheState) : Nat :=
  (st.db.map (·.size)).sum

/-- Model of `updateAccessTime`: resolve the size (argument, then DB row, then
file stat, else no-op), preserve the `uploaded` timestamp, and upsert
`last_accessed = now`. -/
def updateAccessTime (now : Nat) (sha256 : Str) (size : Option Nat)
    (st : CacheState) : CacheState :=
  let sizeResolved : Option Nat :=
    match size with
    | some s => some s
    | none =>
      match dbFind st.db sha256 with
      | some row => some row.size
      | none =>
        match lookupFile st.files sha256 with
        | some content => some content.length
        | none => none
  match sizeResolved with
  | none => st
  | some s =>
    let uploaded := (dbFind st.db sha256).bind (·.uploaded)
    { st with db := dbUpsert st.db ⟨sha256, now, s, uploaded⟩ }

/-- Model of `checkCache`: return the file if it exists and fire off a
non-blocking `updateAccessTime`. -/
def checkCache (now : Nat) (st : CacheState) (sha256 : Str) :
    Option Bytes × CacheState :=
  match lookupFile st.files sha256 with
  | some content => (some content, updateAccessTime now sha256 none st)
  | none => (none, st)

/-! ### `pruneCache`

`SELECT sha256, size FROM cache_metadata ORDER BY last_accessed ASC` is
modelled as a stable sort of the rowid-ordered table (the order the
`idx_last_accessed` index scan yields: equal keys in rowid order). -/

/-- Stable insertion step for the `last_accessed` sort. -/
def insertByLA (r : CacheRow) : List CacheRow → List CacheRow
  | [] => [r]
  | x :: xs =>
    if x.lastAccessed < r.lastAccessed then x :: insertByLA r xs
    else r :: x :: xs

/-- Stable sort of the metadata table by `last_accessed` ascending. -/
def sortByLA : List CacheRow → List CacheRow
  | [] => []
  | x :: xs => insertByLA x (sortByLA xs)

/-- The eviction loop: walk the LRU-ordered rows, stopping once the
freed bytes reach `sizeToFree`.  A row whose file delete throws is still
selected for removal but contributes nothing to the freed count.
Returns the evicted rows (in order) and the freed byte count. -/
def pruneLoop (deleteFails : Str → Bool) (sizeToFree : Nat) :
    List CacheRow → Nat → List CacheRow × Nat
  | [], freed => ([], freed)
  | row :: rest, freed =>
    if sizeToFree ≤ freed then ([], freed)
    else
      let freed' := if deleteFails row.sha256 then freed else freed + row.size
      let r := pruneLoop deleteFails sizeToFree rest freed'
      (row :: r.1, r.2)

/-- Model of `pruneCache`: when a ceiling is configured and exceeded, evict
least-recently-accessed rows down to 90% of the ceiling.  Rows are
removed from the table even when their file delete fails; files are
removed only when the delete succeeds. -/
def pruneCache (deleteFails : Str → Bool) (maxCacheSize : Option Nat)
    (st : CacheState) : CacheState :=
  match maxCacheSize with
  | none => st
  | some maxSize =>
    let currentSize := getCacheSize st
    if currentSize ≤ maxSize then st
    else
      let targetSize := maxSize * 9 / 10
      let sizeToFree := currentSize - targetSize
      if sizeToFree = 0 then st
      else
        let rows := sortByLA st.db
        let evicted := (pruneLoop deleteFails sizeToFree rows 0).1
        let evictedDigests := evicted.map (·.sha256)
        { files := st.files.filter
            (fun p => !(evictedDigests.contains p.1 && !deleteFails p.1)),
          db := st.db.filter (fun r => !(evictedDigests.contains r.sha256)) }

/-- Model of `pruneCacheIfNeeded`: prune only when a ceiling is configured and
exceeded. -/
def pruneCacheIfNeeded (deleteFails : Str → Bool) (maxCacheSize : Option Nat)
    (st : CacheState) : CacheState :=
  match maxCacheSize with
  | none => st
  | some maxSize =>
    if maxSize < getCacheSize st then pruneCache deleteFails (some maxSize) st
    else st

/-- The eviction rule the specification describes: identical to
`pruneCache` except that ties on `last_accessed` are broken by ascending
digest order.  Used to compare the specified rule with the code's. -/
def strLtB : Str → Str → Bool
  | [], [] => false
  | [], _ :: _ => true
  | _ :: _, [] => false
  | a :: as_, b :: bs => if a = b then strLtB as_ bs else decide (a < b)

/-- Insertion step for the specification's `(last_accessed, digest)` order. -/
def insertByLADigest (r : CacheRow) : List CacheRow → List CacheRow
  | [] => [r]
  | x :: xs =>
    if x.lastAccessed < r.lastAccessed ∨
        (x.lastAccessed = r.lastAccessed ∧ strLtB x.sha256 r.sha256) then
      x :: insertByLADigest r xs
    else r :: x :: xs

/-- Sort by `(last_accessed, digest)` ascending, per the specification. -/
def sortByLADigest : List CacheRow → List CacheRow
  | [] => []
  | x :: xs => insertByLADigest x (sortByLADigest xs)

/-- Variant of `pruneCache` as the specification words it (digest tie-break). -/
def pruneCacheSpec (deleteFails : Str → Bool) (maxCacheSize : Option Nat)
    (st : CacheState) : CacheState :=
  match maxCacheSize with
  | none => st
  | some maxSize =>
    let currentSize := getCacheSize st
    if currentSize ≤ maxSize then st
    else
      let targetSize := maxSize * 9 / 10
      let sizeToFree := currentSize - targetSize
      if sizeToFree = 0 then st
      else
        let rows := sortByLADigest st.db
        let evicted := (pruneLoop deleteFails sizeToFree rows 0).1
        let evictedDigests := evicted.map (·.sha256)
        { files := st.files.filter
            (fun p => !(evictedDigests.contains p.1 && !deleteFails p.1)),
          db := st.db.filter (fun r => !(evictedDigests.contains r.sha256)) }

/-! ## `src/hash-stream.ts` and `src/stream-utils.ts`

`Bun.CryptoHasher("sha256")` is a runtime primitive, not repository
code; the pipeline is parameterised by `hashHex : Bytes → Str`, the hex
digest of an accumulated byte sequence (an incremental hasher computes
exactly the digest of the concatenation of its `update` inputs). -/

/-- State of `HashTransformStream`: the bytes fed to the hasher so far
and the chunks re-emitted so far. -/
structure HashTransformState where
  hasherInput : Bytes
  output : List Bytes
  deriving DecidableEq, Repr

/-- One `transform(chunk, controller)` call: update the hasher, enqueue
the same chunk unchanged. -/
def hashTransformStep (st : HashTransformState) (chunk : Bytes) :
    HashTransformState :=
  { hasherInput := st.hasherInput ++ chunk, output := st.output ++ [chunk] }

/-- Run the transform over a whole upstream chunk sequence. -/
def runHashTransform (chunks : List Bytes) : HashTransformState :=
  chunks.foldl hashTransformStep ⟨[], []⟩

/-- Model of `HashTransformStream.validateHash`: the constructor stores
`expectedHash.toLowerCase()` and validation compares the lowercased
computed hex against it, so the net comparison is
`lower(computed) == lower(expected)`. -/
def validateHash (hashHex : Bytes → Str) (expectedHash : Str)
    (hasherInput : Bytes) : Bool :=
  toLowerStr (hashHex hasherInput) == toLowerStr expectedHash

/-- Resolution events of the two promises `createHashAndCacheStream`
returns, in resolution order. -/
inductive PipeEvent
  | cacheWriteResolved
  | hashValidationResolved (isValid : Bool)
  deriving DecidableEq, Repr

/-- Result of `createHashAndCacheStream`: the teed response and cache
branches, the hash verdict, and the promise resolution order (the hash
validation `await`s the cache write before finalizing the hasher). -/
structure HashAndCacheResult where
  responseChunks : List Bytes
  cacheChunks : List Bytes
  hashValid : Bool
  events : List PipeEvent
  deriving DecidableEq, Repr

/-- Model of `createHashAndCacheStream`: pipe the upstream through the hash
transform, tee into a cache branch and a response branch, resolve
`cacheWrite` when the cache branch finishes, then resolve
`hashValidation` with the verdict. -/
def createHashAndCacheStream (hashHex : Bytes → Str) (sha256 : Str)
    (upstreamChunks : List Bytes) : HashAndCacheResult :=
  let h := runHashTransform upstreamChunks
  let cacheChunks := h.output
  let responseChunks := h.output
  let isValid := validateHash hashHex sha256 h.hasherInput
  { responseChunks := responseChunks,
    cacheChunks := cacheChunks,
    hashValid := isValid,
    events := [.cacheWriteResolved, .hashValidationResolved isValid] }

/-! ## `src/cache-stream.ts` and the poison-cleanup step of
`src/handler.ts` -/

/-- Effect on the cache store of the cache branch completing normally:
all chunks are on disk, and `close()` runs `updateAccessTime` with the
stat size and then fires `pruneCacheIfNeeded`. -/
def cacheStreamFinish (deleteFails : Str → Bool) (maxCacheSize : Option Nat)
    (now : Nat) (sha256 : Str) (content : Bytes) (st : CacheState) :
    CacheState :=
  let written : CacheState := { st with files := setFile st.files sha256 content }
  let touched := updateAccessTime now sha256 (some content.length) written
  pruneCacheIfNeeded deleteFails maxCacheSize touched

/-- The background `hashValidation.then` handler in `handleBlobRequest`:
on a failed validation, delete the cache *file* (`Bun.file(path).delete()`);
the metadata table is not touched. -/
def hashValidationCleanup (sha256 : Str) (isValid : Bool) (st : CacheState) :
    CacheState :=
  if isValid then st else { st with files := deleteFile st.files sha256 }

/-- End-to-end state change of a miss fetch that streams `upstreamBytes`
to completion: the cache write finishes (file + metadata row), then the
hash verdict is computed, then the handler's cleanup runs. -/
def completeFetch (hashHex : Bytes → Str) (deleteFails : Str → Bool)
    (maxCacheSize : Option Nat) (now : Nat) (sha256 : Str)
    (upstreamBytes : Bytes) (st : CacheState) : CacheState :=
  let afterWrite := cacheStreamFinish deleteFails maxCacheSize now sha256 upstreamBytes st
  let isValid := validateHash hashHex sha256 upstreamBytes
  hashValidationCleanup sha256 isValid afterWrite

/-! ## `src/request-queue.ts` and the per-request `tee()`

A `ReadableStream` carries its chunk sequence and a locked flag;
`tee()` throws (`none`) on a locked stream, otherwise locks the original
and hands back two branches that replay the same chunks. -/

/-- A modelled `ReadableStream`. -/
structure RStream where
  chunks : List Bytes
  locked : Bool
  deriving DecidableEq, Repr

/-- Model of `stream.tee()`: `none` (a thrown `TypeError`) when the stream is
already locked; otherwise two identical branches, and the original
stream becomes locked. -/
def teeStream (s : RStream) : Option (RStream × RStream) × RStream :=
  if s.locked then (none, s)
  else (some (⟨s.chunks, false⟩, ⟨s.chunks, false⟩), { s with locked := true })

/-- What one request observes when it reaches
`fetchResult.stream.tee()` in `handleBlobRequest`. -/
inductive ClientOutcome
  | streamed (bodyChunks : List Bytes)
  | internalError
  deriving DecidableEq, Repr

/-- One client attaching to the shared `StreamResult`: tee the shared
stream; on success the request branch is the response body, on a thrown
`TypeError` the request fails with a 500. -/
def attachClient (shared : RStream) : ClientOutcome × RStream :=
  match teeStream shared with
  | (some (requestStream, _hashConsumptionStream), shared') =>
    (.streamed requestStream.chunks, shared')
  | (none, shared') => (.internalError, shared')

/-- State of the deduplication queue: the in-flight map (digest to
promise id) and the table of produced `StreamResult` streams (the
promise id is the index; promises are never deleted from this table, so
a handle obtained earlier stays readable). -/
structure QueueState where
  inFlight : List (Str × Nat)
  promises : List RStream
  deriving DecidableEq, Repr

/-- Model of `inFlightFetches.get(sha256)`. -/
def qLookup (q : QueueState) (sha256 : Str) : Option Nat :=
  (q.inFlight.find? (fun p => p.1 == sha256)).map (·.2)

/-- Model of `getOrCreateFetch`: return the existing promise if one is in flight,
otherwise create one, insert it, and report that a new upstream fetch
was started.  The map check and insert are a single synchronous section
of the event loop, so the operation is atomic. -/
def getOrCreateFetch (sha256 : Str) (produced : RStream) (q : QueueState) :
    Nat × QueueState × Bool :=
  match qLookup q sha256 with
  | some pid => (pid, q, false)
  | none =>
    let pid := q.promises.length
    (pid,
     { inFlight := (sha256, pid) :: q.inFlight,
       promises := q.promises ++ [produced] },
     true)

/-- The `finally` of the producer: remove the digest from the in-flight
map whatever the outcome; the promise table is untouched. -/
def finishFetch (sha256 : Str) (_success : Bool) (q : QueueState) : QueueState :=
  { q with inFlight := q.inFlight.filter (fun p => !(p.1 == sha256)) }

/-! ## Helper lemmas -/

theorem lookupFile_deleteFile (files : List (Str × Bytes)) (d : Str) :
    lookupFile (deleteFile files d) d = none := by
  induction files with
  | nil => rfl
  | cons p t ih =>
    by_cases h : p.1 == d
    · simpa [deleteFile, List.filter_cons, h] using ih
    · simp only [deleteFile, List.filter_cons, h, Bool.not_false, if_pos]
      simp [lookupFile, List.find?, h]

theorem dbHasRow_dbUpsert_self (db : List CacheRow) (row : CacheRow) :
    dbHasRow (dbUpsert db row) row.sha256 = true := by
  simp [dbHasRow, dbUpsert, List.any_append]

/-! ## Claim C1 — poison rejection

The claim asserts that after a fetch whose bytes hash to a value other
than the requested digest, `Cache.lookup(D)` is absent *and* the
metadata row for D does not exist.  The code deletes only the file
(`handler.ts` lines 232–249 use `Bun.file(cachePath).delete()`); the
metadata row inserted by the cache stream's `close()` handler stays. -/

/-- C1 (counterexample).  A completed fetch of bytes `[1,2,3]` whose
digest function yields `"ff"` against requested digest `"aa"`: the
lookup is absent, but the metadata row for `"aa"` still exists, so the
claimed conjunction is false. -/
theorem c1_counterexample :
    ¬ ((checkCache 8 (completeFetch (fun _ => ['f', 'f']) (fun _ => false)
          none 7 ['a', 'a'] [1, 2, 3] ⟨[], []⟩) ['a', 'a']).1 = none ∧
       dbHasRow (completeFetch (fun _ => ['f', 'f']) (fun _ => false)
          none 7 ['a', 'a'] [1, 2, 3] ⟨[], []⟩).db ['a', 'a'] = false) := by
  decide

/-- C1 (amended).  For every completed fetch whose upstream bytes hash
to a value different from the requested digest, `Cache.lookup(D)`
returns absent, but (when no size ceiling triggers pruning) the metadata
row for D still exists: the handler deletes only the blob file. -/
theorem c1_poison_amended (hashHex : Bytes → Str) (deleteFails : Str → Bool)
    (now now' : Nat) (sha256 : Str) (upstreamBytes : Bytes) (st : CacheState)
    (hmismatch : validateHash hashHex sha256 upstreamBytes = false) :
    (checkCache now' (completeFetch hashHex deleteFails none now sha256
        upstreamBytes st) sha256).1 = none ∧
    dbHasRow (completeFetch hashHex deleteFails none now sha256
        upstreamBytes st).db sha256 = true := by
  unfold completeFetch cacheStreamFinish pruneCacheIfNeeded hashValidationCleanup
  rw [hmismatch]
  simp only [if_neg (by simp : ¬ (false = true))]
  constructor
  · simp [checkCache, lookupFile_deleteFile]
  · show dbHasRow (updateAccessTime now sha256 (some upstreamBytes.length) _).db _ = true
    unfold updateAccessTime
    simpa using dbHasRow_dbUpsert_self _ _

/-- C1 (amended, witness): the amended statement at the counterexample's
concrete input. -/
theorem c1_poison_amended_witness :
    (checkCache 8 (completeFetch (fun _ => ['f', 'f']) (fun _ => false)
        none 7 ['a', 'a'] [1, 2, 3] ⟨[], []⟩) ['a', 'a']).1 = none ∧
    dbHasRow (completeFetch (fun _ => ['f', 'f']) (fun _ => false)
        none 7 ['a', 'a'] [1, 2, 3] ⟨[], []⟩).db ['a', 'a'] = true :=
  c1_poison_amended (fun _ => ['f', 'f']) (fun _ => false) 7 8 ['a', 'a']
    [1, 2, 3] ⟨[], []⟩ (by decide)

/-! ## Claim C2 — deduplication fan-out

With two concurrent clients for the same uncached digest the queue does
issue exactly one upstream fetch, but both clients receive the *same*
`StreamResult` object.  The first client's `fetchResult.stream.tee()`
locks the shared stream, so the second client's `tee()` throws a
`TypeError` and that request fails with a 500 instead of receiving the
bytes — contradicting the source's own comment ("Each request gets its
own branch") and the deduplication contract. -/

/-- C2 (code behavior at the failing input).  Two clients, same uncached
digest, both inside the dedup window: exactly one fetch is started and
both get the same promise, but after the first client tees the shared
stream, the second client's tee throws. -/
theorem c2_second_client_errors :
    (let q0 : QueueState := ⟨[], []⟩
     let produced : RStream := ⟨[[1, 2], [3]], false⟩
     let r1 := getOrCreateFetch ['a', 'a'] produced q0
     let r2 := getOrCreateFetch ['a', 'a'] produced r1.2.1
     let a1 := attachClient produced
     let a2 := attachClient a1.2
     r1.2.2 = true ∧ r2.2.2 = false ∧ r2.1 = r1.1 ∧
     a1.1 = ClientOutcome.streamed [[1, 2], [3]] ∧
     a2.1 = ClientOutcome.internalError) := by
  decide

/-! ## Claim C3 — `fetchFromServer` status handling

The claim says the response is returned exactly when the status is 200
or 206.  The code returns it when `response.ok` holds, i.e. for every
2xx status; a 204 reply is returned even though 204 ∉ {200, 206}. -/

/-- C3 (counterexample).  A 204 upstream reply is returned by
`fetchFromServer`, refuting "returns the response exactly when the
status is 200 or 206". -/
theorem c3_counterexample :
    fetchFromServer (fun _ => FetchOutcome.reply ⟨204, none⟩) 5
        "https://s".toList ['a', 'a'] none 0 = some ⟨204, none⟩ ∧
    ¬ ((204 : Nat) = 200 ∨ (204 : Nat) = 206) := by
  decide

/-- C3 (amended).  For a candidate server with an explicit scheme,
`fetchFromServer` returns a non-redirect upstream reply exactly when its
status is 2xx (`response.ok`) or 206; on a transport error it returns
failure (`null`). -/
theorem fetchTryServers_single_reply (net : Str → FetchOutcome) (sha256 : Str)
    (ext : Option Str) (fopt : Option (Str → FetchResultT)) (server : Str)
    (resp : UpstreamResponse)
    (hnet : net (buildUrl server sha256 ext) = FetchOutcome.reply resp)
    (hnored : ¬ (300 ≤ resp.status ∧ resp.status < 400)) :
    fetchTryServers net sha256 ext fopt [server] =
      (if (200 ≤ resp.status ∧ resp.status < 300) ∨ resp.status = 206
       then ⟨some resp, [buildUrl server sha256 ext], 0⟩
       else ⟨none, [buildUrl server sha256 ext], 0⟩) := by
  have hcond : ¬ (300 ≤ resp.status ∧ resp.status < 400 ∧
      locationKeepsDigest resp.location sha256 = true) := by
    intro ⟨h1, h2, _⟩; exact hnored ⟨h1, h2⟩
  by_cases hok : (200 ≤ resp.status ∧ resp.status < 300) ∨ resp.status = 206
  · simp [fetchTryServers, hnet, hcond, hok]
  · by_cases h404 : resp.status = 404 <;>
      simp [fetchTryServers, hnet, hcond, hok, h404]

theorem fetchTryServers_single_transport (net : Str → FetchOutcome) (sha256 : Str)
    (ext : Option Str) (fopt : Option (Str → FetchResultT)) (server : Str)
    (hnet : net (buildUrl server sha256 ext) = FetchOutcome.transportError) :
    fetchTryServers net sha256 ext fopt [server] =
      ⟨none, [buildUrl server sha256 ext], 0⟩ := by
  simp [fetchTryServers, hnet]

theorem fetchFromServerT_zero (net : Str → FetchOutcome) (maxRedirects : Nat)
    (server sha256 : Str) (ext : Option Str) :
    fetchFromServerT net maxRedirects server sha256 ext 0 =
      fetchWithFuel net sha256 ext maxRedirects server := by
  simp [fetchFromServerT]

theorem fetchWithFuel_eq_tryServers (net : Str → FetchOutcome) (sha256 : Str)
    (ext : Option Str) (fuel : Nat) (server : Str) :
    ∃ fopt, fetchWithFuel net sha256 ext fuel server =
      fetchTryServers net sha256 ext fopt (normalizeServerUrl server) := by
  cases fuel with
  | zero => exact ⟨none, rfl⟩
  | succ k => exact ⟨some (fetchWithFuel net sha256 ext k), rfl⟩

/-- C3 (amended).  For a candidate server with an explicit scheme,
`fetchFromServer` returns a non-redirect upstream reply exactly when its
status is 2xx (`response.ok`) or 206 — so also for e.g. 204; on 404 and
on every other status it returns failure (`null`), and on a transport
error it returns failure. -/
theorem c3_status_amended (net : Str → FetchOutcome) (maxRedirects : Nat)
    (server sha256 : Str) (ext : Option Str)
    (hscheme : normalizeServerUrl server = [server]) :
    (∀ resp : UpstreamResponse,
      net (buildUrl server sha256 ext) = FetchOutcome.reply resp →
      ¬ (300 ≤ resp.status ∧ resp.status < 400) →
      fetchFromServer net maxRedirects server sha256 ext 0 =
        (if (200 ≤ resp.status ∧ resp.status < 300) ∨ resp.status = 206
         then some resp else none)) ∧
    (net (buildUrl server sha256 ext) = FetchOutcome.transportError →
      fetchFromServer net maxRedirects server sha256 ext 0 = none) := by
  obtain ⟨fopt, hrun⟩ := fetchWithFuel_eq_tryServers net sha256 ext maxRedirects server
  rw [hscheme] at hrun
  constructor
  · intro resp hnet hnored
    rw [fetchFromServer, fetchFromServerT_zero, hrun,
      fetchTryServers_single_reply net sha256 ext fopt server resp hnet hnored]
    by_cases hok : (200 ≤ resp.status ∧ resp.status < 300) ∨ resp.status = 206 <;>
      simp [hok]
  · intro hnet
    rw [fetchFromServer, fetchFromServerT_zero, hrun,
      fetchTryServers_single_transport net sha256 ext fopt server hnet]

/-- C3 (amended, witness): a 204 reply is returned; a 500 reply and a
transport error yield `null`. -/
theorem c3_status_amended_witness :
    fetchFromServer (fun _ => FetchOutcome.reply ⟨204, none⟩) 5
        "https://s".toList ['a', 'a'] none 0 =
      (if ((200 : Nat) ≤ 204 ∧ (204 : Nat) < 300) ∨ (204 : Nat) = 206
       then some ⟨204, none⟩ else none) ∧
    fetchFromServer (fun _ => FetchOutcome.transportError) 5
        "https://s".toList ['a', 'a'] none 0 = none :=
  ⟨(c3_status_amended (fun _ => FetchOutcome.reply ⟨204, none⟩) 5
      "https://s".toList ['a', 'a'] none (by decide)).1 ⟨204, none⟩ rfl (by decide),
   (c3_status_amended (fun _ => FetchOutcome.transportError) 5
      "https://s".toList ['a', 'a'] none (by decide)).2 rfl⟩

/-! ## Claim C4 — redirect policy -/

theorem fetchTryServers_none_follows (net : Str → FetchOutcome) (sha256 : Str)
    (ext : Option Str) (servers : List Str) :
    (fetchTryServers net sha256 ext none servers).follows = 0 := by
  induction servers with
  | nil => rfl
  | cons serverUrl rest ih =>
    cases hnet : net (buildUrl serverUrl sha256 ext) with
    | transportError => simp [fetchTryServers, hnet, ih]
    | reply resp =>
      cases hloc : resp.location with
      | none =>
        by_cases hok : (200 ≤ resp.status ∧ resp.status < 300) ∨ resp.status = 206
        · simp [fetchTryServers, hnet, hloc, hok, locationKeepsDigest]
        · by_cases h404 : resp.status = 404 <;>
            simp [fetchTryServers, hnet, hloc, hok, h404, locationKeepsDigest, ih]
      | some loc =>
        by_cases hred : 300 ≤ resp.status ∧ resp.status < 400 ∧
            locationKeepsDigest (some loc) sha256 = true
        · simp [fetchTryServers, hnet, hloc, hred]
        · by_cases hok : (200 ≤ resp.status ∧ resp.status < 300) ∨ resp.status = 206
          · simp [fetchTryServers, hnet, hloc, hred, hok]
          · by_cases h404 : resp.status = 404 <;>
              simp [fetchTryServers, hnet, hloc, hred, hok, h404, ih]

theorem fetchTryServers_follows_le (net : Str → FetchOutcome) (sha256 : Str)
    (ext : Option Str) (f : Str → FetchResultT) (k : Nat)
    (hf : ∀ loc, (f loc).follows ≤ k) (servers : List Str) :
    (fetchTryServers net sha256 ext (some f) servers).follows ≤ k + 1 := by
  induction servers with
  | nil => simp [fetchTryServers]
  | cons serverUrl rest ih =>
    cases hnet : net (buildUrl serverUrl sha256 ext) with
    | transportError => simpa [fetchTryServers, hnet] using ih
    | reply resp =>
      cases hloc : resp.location with
      | none =>
        by_cases hok : (200 ≤ resp.status ∧ resp.status < 300) ∨ resp.status = 206
        · simp [fetchTryServers, hnet, hloc, hok, locationKeepsDigest]
        · by_cases h404 : resp.status = 404 <;>
            simp [fetchTryServers, hnet, hloc, hok, h404, locationKeepsDigest, ih]
      | some loc =>
        by_cases hred : 300 ≤ resp.status ∧ resp.status < 400 ∧
            locationKeepsDigest (some loc) sha256 = true
        · have := hf loc
          simp only [fetchTryServers, hnet, hloc, if_pos hred]
          omega
        · by_cases hok : (200 ≤ resp.status ∧ resp.status < 300) ∨ resp.status = 206
          · simp [fetchTryServers, hnet, hloc, hred, hok]
          · by_cases h404 : resp.status = 404
            · simpa [fetchTryServers, hnet, hloc, hred, hok, h404] using ih
            · simp [fetchTryServers, hnet, hloc, hred, hok, h404]

theorem fetchWithFuel_follows_le (net : Str → FetchOutcome) (sha256 : Str)
    (ext : Option Str) : ∀ (fuel : Nat) (server : Str),
    (fetchWithFuel net sha256 ext fuel server).follows ≤ fuel := by
  intro fuel
  induction fuel with
  | zero =>
    intro server
    simp [fetchWithFuel, fetchTryServers_none_follows]
  | succ k ih =>
    intro server
    simpa [fetchWithFuel] using
      fetchTryServers_follows_le net sha256 ext _ k (fun loc => ih loc) _

theorem normalizeServerUrl_length_le (server : Str) :
    (normalizeServerUrl server).length ≤ 2 := by
  unfold normalizeServerUrl
  split <;> simp

theorem fetchTryServers_fetched_le (net : Str → FetchOutcome) (sha256 : Str)
    (ext : Option Str) (fopt : Option (Str → FetchResultT)) (k : Nat)
    (hf : ∀ f, fopt = some f → ∀ loc, (f loc).fetched.length ≤ k)
    (servers : List Str) :
    (fetchTryServers net sha256 ext fopt servers).fetched.length ≤
      servers.length + k := by
  induction servers with
  | nil => simp [fetchTryServers]
  | cons serverUrl rest ih =>
    cases hnet : net (buildUrl serverUrl sha256 ext) with
    | transportError =>
      simp only [fetchTryServers, hnet, List.length_cons]
      omega
    | reply resp =>
      cases hloc : resp.location with
      | none =>
        have hred : ¬ (300 ≤ resp.status ∧ resp.status < 400 ∧
            locationKeepsDigest (none : Option Str) sha256 = true) := by
          simp [locationKeepsDigest]
        by_cases hok : (200 ≤ resp.status ∧ resp.status < 300) ∨ resp.status = 206
        · simp only [fetchTryServers, hnet, hloc]
          rw [if_neg hred, if_pos hok]
          simp
          omega
        · by_cases h404 : resp.status = 404
          · simp only [fetchTryServers, hnet, hloc]
            rw [if_neg hred, if_neg hok, if_pos h404]
            simp
            omega
          · simp only [fetchTryServers, hnet, hloc]
            rw [if_neg hred, if_neg hok, if_neg h404]
            simp
            omega
      | some loc =>
        by_cases hred : 300 ≤ resp.status ∧ resp.status < 400 ∧
            locationKeepsDigest (some loc) sha256 = true
        · cases fopt with
          | none =>
            simp only [fetchTryServers, hnet, hloc]
            rw [if_pos hred]
            simp
            omega
          | some f =>
            have := hf f rfl loc
            simp only [fetchTryServers, hnet, hloc]
            rw [if_pos hred]
            simp
            omega
        · by_cases hok : (200 ≤ resp.status ∧ resp.status < 300) ∨ resp.status = 206
          · simp only [fetchTryServers, hnet, hloc]
            rw [if_neg hred, if_pos hok]
            simp
            omega
          · by_cases h404 : resp.status = 404
            · simp only [fetchTryServers, hnet, hloc]
              rw [if_neg hred, if_neg hok, if_pos h404]
              simp
              omega
            · simp only [fetchTryServers, hnet, hloc]
              rw [if_neg hred, if_neg hok, if_neg h404]
              simp
              omega

theorem fetchWithFuel_fetched_le (net : Str → FetchOutcome) (sha256 : Str)
    (ext : Option Str) : ∀ (fuel : Nat) (server : Str),
    (fetchWithFuel net sha256 ext fuel server).fetched.length ≤ 2 * (fuel + 1) := by
  intro fuel
  induction fuel with
  | zero =>
    intro server
    have h1 := fetchTryServers_fetched_le net sha256 ext none 0
      (by intro f h; cases h) (normalizeServerUrl server)
    have h2 := normalizeServerUrl_length_le server
    simp only [fetchWithFuel]
    omega
  | succ k ih =>
    intro server
    have h1 := fetchTryServers_fetched_le net sha256 ext
      (some (fetchWithFuel net sha256 ext k)) (2 * (k + 1))
      (by intro f h loc; cases h; exact ih loc) (normalizeServerUrl server)
    have h2 := normalizeServerUrl_length_le server
    simp only [fetchWithFuel]
    omega

/-- C4.  `fetchFromServer` (i) returns failure as soon as the redirect
count exceeds the configured cap, (ii) follows at most
`maxRedirects - redirectCount` redirects (so at most the cap, 5 by
default, from the initial call), (iii) issues a bounded number of
`fetch` calls, and (iv) refuses a redirect whose `Location` does not
contain the requested digest as a substring: for a scheme-explicit
server whose reply is such a redirect, the result is failure and the
only URL fetched is the original one. -/
theorem c4_redirect_policy (net : Str → FetchOutcome) (maxRedirects : Nat)
    (server sha256 : Str) (ext : Option Str) :
    (∀ redirectCount, maxRedirects < redirectCount →
      fetchFromServerT net maxRedirects server sha256 ext redirectCount =
        ⟨none, [], 0⟩) ∧
    (∀ redirectCount,
      (fetchFromServerT net maxRedirects server sha256 ext redirectCount).follows ≤
        maxRedirects - redirectCount) ∧
    (∀ redirectCount,
      (fetchFromServerT net maxRedirects server sha256 ext redirectCount).fetched.length ≤
        2 * (maxRedirects - redirectCount + 1)) ∧
    (∀ resp loc, normalizeServerUrl server = [server] →
      net (buildUrl server sha256 ext) = FetchOutcome.reply resp →
      300 ≤ resp.status → resp.status < 400 →
      resp.location = some loc → jsIncludes loc sha256 = false →
      fetchFromServerT net maxRedirects server sha256 ext 0 =
        ⟨none, [buildUrl server sha256 ext], 0⟩) := by
  refine ⟨?_, ?_, ?_, ?_⟩
  · intro c hc
    simp [fetchFromServerT, hc]
  · intro c
    unfold fetchFromServerT
    split
    · simp
    · exact fetchWithFuel_follows_le net sha256 ext _ server
  · intro c
    unfold fetchFromServerT
    split
    · simp
    · exact fetchWithFuel_fetched_le net sha256 ext _ server
  · intro resp loc hscheme hnet h300 h400 hloc hninc
    have hcond : ¬ (300 ≤ resp.status ∧ resp.status < 400 ∧
        locationKeepsDigest resp.location sha256 = true) := by
      intro ⟨_, _, hk⟩
      rw [hloc] at hk
      simp only [locationKeepsDigest] at hk
      rw [hninc] at hk
      cases hk
    have hok : ¬ ((200 ≤ resp.status ∧ resp.status < 300) ∨ resp.status = 206) := by
      omega
    have h404 : ¬ resp.status = 404 := by omega
    rw [fetchFromServerT_zero]
    obtain ⟨fopt, hrun⟩ := fetchWithFuel_eq_tryServers net sha256 ext maxRedirects server
    rw [hscheme] at hrun
    rw [hrun]
    simp [fetchTryServers, hnet, hcond, hok, h404]

/-- C4 (witness): at the default cap of 5, a call at redirect count 6
fails; the follow and fetch bounds hold at count 0; and a 301 whose
`Location` drops the digest is not followed. -/
theorem c4_redirect_policy_witness :
    fetchFromServerT (fun _ => FetchOutcome.reply ⟨301, some "https://evil/other".toList⟩)
        5 "https://s".toList ['a', 'a'] none 6 = ⟨none, [], 0⟩ ∧
    (fetchFromServerT (fun _ => FetchOutcome.reply ⟨301, some "https://evil/other".toList⟩)
        5 "https://s".toList ['a', 'a'] none 0).follows ≤ 5 - 0 ∧
    (fetchFromServerT (fun _ => FetchOutcome.reply ⟨301, some "https://evil/other".toList⟩)
        5 "https://s".toList ['a', 'a'] none 0).fetched.length ≤ 2 * (5 - 0 + 1) ∧
    fetchFromServerT (fun _ => FetchOutcome.reply ⟨301, some "https://evil/other".toList⟩)
        5 "https://s".toList ['a', 'a'] none 0 =
      ⟨none, [buildUrl "https://s".toList ['a', 'a'] none], 0⟩ :=
  ⟨(c4_redirect_policy _ 5 _ _ _).1 6 (by omega),
   (c4_redirect_policy _ 5 _ _ _).2.1 0,
   (c4_redirect_policy _ 5 _ _ _).2.2.1 0,
   (c4_redirect_policy _ 5 _ _ _).2.2.2 ⟨301, some "https://evil/other".toList⟩
     "https://evil/other".toList (by decide) rfl (by decide) (by decide) rfl (by decide)⟩

/-! ## Claim C6 — the hash-and-cache stream -/

theorem runHashTransform_spec (chunks : List Bytes) :
    runHashTransform chunks = ⟨chunks.flatten, chunks⟩ := by
  have general : ∀ (cs : List Bytes) (st : HashTransformState),
      cs.foldl hashTransformStep st =
        ⟨st.hasherInput ++ cs.flatten, st.output ++ cs⟩ := by
    intro cs
    induction cs with
    | nil => intro st; simp
    | cons c t ih =>
      intro st
      simp only [List.foldl_cons, ih, hashTransformStep, List.flatten_cons]
      simp [List.append_assoc]
  simpa [runHashTransform] using general chunks ⟨[], []⟩

/-- C6.  The hash-and-cache stream re-emits every upstream chunk
unchanged on the response branch (and the cache branch), resolves
`cacheWrite` before `hashValidation`, and `hashValidation` resolves to
`true` exactly when the hex digest of all bytes that flowed through
equals the expected digest, compared case-insensitively. -/
theorem c6_hash_and_cache_stream (hashHex : Bytes → Str) (sha256 : Str)
    (upstreamChunks : List Bytes) :
    (createHashAndCacheStream hashHex sha256 upstreamChunks).responseChunks =
      upstreamChunks ∧
    (createHashAndCacheStream hashHex sha256 upstreamChunks).cacheChunks =
      upstreamChunks ∧
    (createHashAndCacheStream hashHex sha256 upstreamChunks).events =
      [PipeEvent.cacheWriteResolved,
       PipeEvent.hashValidationResolved
         (createHashAndCacheStream hashHex sha256 upstreamChunks).hashValid] ∧
    ((createHashAndCacheStream hashHex sha256 upstreamChunks).hashValid = true ↔
      toLowerStr (hashHex upstreamChunks.flatten) = toLowerStr sha256) := by
  simp [createHashAndCacheStream, runHashTransform_spec, validateHash]

/-! ## Claim C9 — the in-flight map invariant -/

/-- The queue invariant: the in-flight map has no duplicate digests. -/
def QueueInv (q : QueueState) : Prop := (q.inFlight.map Prod.fst).Nodup

theorem filterKey_length_le_one {l : List (Str × Nat)} {d : Str}
    (h : (l.map Prod.fst).Nodup) :
    (l.filter (fun p => p.1 == d)).length ≤ 1 := by
  induction l with
  | nil => simp
  | cons p t ih =>
    simp only [List.map_cons, List.nodup_cons] at h
    by_cases hp : p.1 == d
    · have heq : p.1 = d := by simpa using hp
      have : t.filter (fun p => p.1 == d) = [] := by
        apply List.filter_eq_nil_iff.mpr
        intro q hq hqd
        exact h.1 (heq ▸ (by simpa using hqd) ▸ List.mem_map_of_mem Prod.fst hq)
      simp [List.filter_cons, hp, this]
    · simpa [List.filter_cons, hp] using ih h.2

/-- C9.  The in-flight map: `getOrCreateFetch` returns the existing
promise when one is present (no state change, no new fetch); otherwise
it starts one fetch and inserts exactly one entry; the invariant bounds
entries per digest by one and is preserved; `finishFetch` removes the
digest regardless of outcome while the promise table — and so any handle
obtained before removal — is untouched. -/
theorem c9_queue_invariant (q : QueueState) (sha256 : Str) (produced : RStream)
    (success : Bool) (hinv : QueueInv q) :
    (∀ pid, qLookup q sha256 = some pid →
      getOrCreateFetch sha256 produced q = (pid, q, false)) ∧
    (qLookup q sha256 = none →
      (getOrCreateFetch sha256 produced q).2.2 = true ∧
      ((getOrCreateFetch sha256 produced q).2.1.inFlight.filter
        (fun p => p.1 == sha256)).length = 1 ∧
      QueueInv (getOrCreateFetch sha256 produced q).2.1) ∧
    (q.inFlight.filter (fun p => p.1 == sha256)).length ≤ 1 ∧
    qLookup (finishFetch sha256 success q) sha256 = none ∧
    (finishFetch sha256 success q).promises = q.promises ∧
    QueueInv (finishFetch sha256 success q) := by
  refine ⟨?_, ?_, filterKey_length_le_one hinv, ?_, rfl, ?_⟩
  · intro pid hpid
    simp [getOrCreateFetch, hpid]
  · intro hnone
    have hmem : ∀ p ∈ q.inFlight, ¬ (p.1 == sha256) = true := by
      have := hnone
      simp only [qLookup, Option.map_eq_none', List.find?_eq_none] at this
      exact this
    refine ⟨by simp [getOrCreateFetch, hnone], ?_, ?_⟩
    · have hrest : q.inFlight.filter (fun p => p.1 == sha256) = [] :=
        List.filter_eq_nil_iff.mpr hmem
      simp [getOrCreateFetch, hnone, List.filter_cons, hrest]
    · have hnotmem : sha256 ∉ q.inFlight.map Prod.fst := by
        intro hmem2
        obtain ⟨p, hp, hfst⟩ := List.mem_map.mp hmem2
        exact hmem p hp (by simp [hfst])
      simp only [QueueInv, getOrCreateFetch, hnone, List.map_cons, List.nodup_cons]
      exact ⟨hnotmem, hinv⟩
  · simp only [qLookup, finishFetch, Option.map_eq_none', List.find?_eq_none]
    intro p hp
    have := List.of_mem_filter hp
    simpa using this
  · have hsub : ((q.inFlight.filter (fun p => !(p.1 == sha256))).map Prod.fst).Sublist
        (q.inFlight.map Prod.fst) :=
      (List.filter_sublist _).map Prod.fst
    exact List.Nodup.sublist hsub hinv

/-- C9 (witness): the conjunction at a concrete queue state satisfying
the invariant. -/
theorem c9_queue_invariant_witness :
    (∀ pid, qLookup ⟨[(['b'], 0)], [⟨[], false⟩]⟩ ['a', 'a'] = some pid →
      getOrCreateFetch ['a', 'a'] ⟨[[1]], false⟩ ⟨[(['b'], 0)], [⟨[], false⟩]⟩ =
        (pid, ⟨[(['b'], 0)], [⟨[], false⟩]⟩, false)) ∧
    (qLookup ⟨[(['b'], 0)], [⟨[], false⟩]⟩ ['a', 'a'] = none →
      (getOrCreateFetch ['a', 'a'] ⟨[[1]], false⟩ ⟨[(['b'], 0)], [⟨[], false⟩]⟩).2.2 = true ∧
      ((getOrCreateFetch ['a', 'a'] ⟨[[1]], false⟩ ⟨[(['b'], 0)], [⟨[], false⟩]⟩).2.1.inFlight.filter
        (fun p => p.1 == ['a', 'a'])).length = 1 ∧
      QueueInv (getOrCreateFetch ['a', 'a'] ⟨[[1]], false⟩ ⟨[(['b'], 0)], [⟨[], false⟩]⟩).2.1) ∧
    ((⟨[(['b'], 0)], [⟨[], false⟩]⟩ : QueueState).inFlight.filter
      (fun p => p.1 == ['a', 'a'])).length ≤ 1 ∧
    qLookup (finishFetch ['a', 'a'] true ⟨[(['b'], 0)], [⟨[], false⟩]⟩) ['a', 'a'] = none ∧
    (finishFetch ['a', 'a'] true ⟨[(['b'], 0)], [⟨[], false⟩]⟩).promises =
      (⟨[(['b'], 0)], [⟨[], false⟩]⟩ : QueueState).promises ∧
    QueueInv (finishFetch ['a', 'a'] true ⟨[(['b'], 0)], [⟨[], false⟩]⟩) :=
  c9_queue_invariant ⟨[(['b'], 0)], [⟨[], false⟩]⟩ ['a', 'a'] ⟨[[1]], false⟩ true
    (by simp [QueueInv])

/-! ## Claim C10 — a malformed `Range` header yields the full file -/

/-- C10.  A GET of a cached blob whose `Range` header does not match
`bytes=<digits>-<optional digits>` is answered with 200, the complete
file body, `Content-Length` equal to the file size and the normal
success headers — not 416. -/
theorem c10_malformed_range_full_file (fileBytes : Bytes) (contentType : Str)
    (sha256 : Str) (rangeHdr : Str) (missResp : RespM)
    (hmal : jsMatchRange rangeHdr = none) :
    handleBlobRequest false none (some rangeHdr) sha256 (some fileBytes)
        contentType missResp =
      addCorsHeaders ⟨200, fileBytes,
        successHeaders contentType fileBytes.length (generateETag sha256)⟩ := by
  simp [handleBlobRequest, handleCachedFile, checkIfNoneMatch, hmal]

/-- C10 (witness): the suffix range `bytes=-5` does not match the
pattern and yields the full 200 response. -/
theorem c10_malformed_range_full_file_witness :
    handleBlobRequest false none (some "bytes=-5".toList) ['a', 'a']
        (some [10, 20, 30]) "text/plain".toList (createErrorResponse 500 []) =
      addCorsHeaders ⟨200, [10, 20, 30],
        successHeaders "text/plain".toList 3 (generateETag ['a', 'a'])⟩ :=
  c10_malformed_range_full_file [10, 20, 30] "text/plain".toList ['a', 'a']
    "bytes=-5".toList (createErrorResponse 500 []) (by decide)


/-! ## Claim C7 — `If-None-Match` conditional responses -/

theorem stripWeak_generateETag (d : Str) :
    stripWeak (generateETag d) = generateETag d := by
  have hne : ¬ (generateETag d).take 2 = ['W', '/'] := by
    intro hcontra
    injection hcontra with h1 _
    exact absurd h1 (by decide)
  simp [stripWeak, hne]

theorem stripWeak_weak (s : Str) : stripWeak ('W' :: '/' :: s) = s := by
  simp [stripWeak]

theorem jsTrim_generateETag (d : Str) :
    jsTrim (generateETag d) = generateETag d := by
  have hq : ¬ ((('"' : Char).isWhitespace) = true) := by decide
  simp only [jsTrim, generateETag, List.cons_append]
  rw [List.dropWhile_cons_of_neg hq]
  rw [show ('"' :: (d ++ ['"'])).reverse = '"' :: (d.reverse ++ ['"']) from by simp]
  rw [List.dropWhile_cons_of_neg hq]
  simp

theorem jsSplitComma_no_comma (s : Str) (h : ∀ c ∈ s, c ≠ ',') :
    jsSplitComma s = [s] := by
  induction s with
  | nil => rfl
  | cons c t ih =>
    have hc : ¬ c = ',' := h c (by simp)
    have ht := ih (fun x hx => h x (by simp [hx]))
    simp [jsSplitComma, hc, ht]

theorem checkIfNoneMatch_of_mem (inm : Str) (d : Str) (e : Str)
    (he : e ∈ (jsSplitComma inm).map jsTrim)
    (heq : e = generateETag d ∨ e = 'W' :: '/' :: generateETag d) :
    checkIfNoneMatch (some inm) (generateETag d) = true := by
  simp only [checkIfNoneMatch]
  rw [List.any_eq_true]
  obtain ⟨y, hy, hye⟩ := List.mem_map.mp he
  refine ⟨stripWeak e, List.mem_map.mpr ⟨y, hy, by rw [hye]⟩, ?_⟩
  cases heq with
  | inl h =>
    subst h
    simp [stripWeak_generateETag]
  | inr h =>
    subst h
    simp [stripWeak_weak, stripWeak_generateETag]

theorem checkIfNoneMatch_self (d : Str) (hcomma : ',' ∉ d) :
    checkIfNoneMatch (some (generateETag d)) (generateETag d) = true := by
  have hnc : ∀ c ∈ generateETag d, c ≠ ',' := by
    intro c hc hceq
    subst hceq
    simp only [generateETag, List.cons_append, List.mem_cons, List.mem_append,
      List.mem_singleton] at hc
    rcases hc with h | h | h
    · exact absurd h (by decide)
    · exact hcomma h
    · exact absurd h (by decide)
  apply checkIfNoneMatch_of_mem (e := generateETag d)
  · rw [jsSplitComma_no_comma _ hnc]
    simp [jsTrim_generateETag]
  · exact Or.inl rfl

/-- C7.  A GET or HEAD without a `Range` header whose `If-None-Match`
contains the blob's quoted ETag — optionally weak-prefixed, possibly in
a comma-separated list — is answered 304 (cached or not); and the ETag
round-trip holds: the plain 200 carries `ETag: "D"`, and a follow-up GET
with `If-None-Match: "D"` and no `Range` returns 304. -/
theorem c7_etag_round_trip (isHead : Bool) (d : Str) (cachedBytes : Option Bytes)
    (contentType : Str) (missResp : RespM) (inm : Str) (fileBytes : Bytes)
    (hmatch : ∃ e ∈ (jsSplitComma inm).map jsTrim,
      e = generateETag d ∨ e = 'W' :: '/' :: generateETag d) :
    handleBlobRequest isHead (some inm) none d cachedBytes contentType missResp =
      createNotModifiedResponse (generateETag d) ∧
    (',' ∉ d →
      (handleBlobRequest false none none d (some fileBytes) contentType
        missResp).status = 200 ∧
      ("ETag".toList, generateETag d) ∈
        (handleBlobRequest false none none d (some fileBytes) contentType
          missResp).headers ∧
      handleBlobRequest false (some (generateETag d)) none d (some fileBytes)
          contentType missResp =
        createNotModifiedResponse (generateETag d)) := by
  constructor
  · obtain ⟨e, he, heq⟩ := hmatch
    have hc := checkIfNoneMatch_of_mem inm d e he heq
    simp [handleBlobRequest, hc]
  · intro hcomma
    refine ⟨?_, ?_, ?_⟩
    · simp [handleBlobRequest, handleCachedFile, checkIfNoneMatch,
        addCorsHeaders]
    · simp [handleBlobRequest, handleCachedFile, checkIfNoneMatch,
        addCorsHeaders, successHeaders]
    · have hc := checkIfNoneMatch_self d hcomma
      simp [handleBlobRequest, hc]

/-- C7 (witness): digest `ab`, header `W/"ab", "zz"`; and the concrete
round-trip. -/
theorem c7_etag_round_trip_witness :
    (handleBlobRequest false (some "W/\"ab\", \"zz\"".toList) none
        ['a', 'b'] (some [1, 2]) "text/plain".toList
        (createErrorResponse 500 []) =
      createNotModifiedResponse (generateETag ['a', 'b'])) ∧
    (handleBlobRequest false none none ['a', 'b'] (some [1, 2])
        "text/plain".toList (createErrorResponse 500 [])).status = 200 ∧
    ("ETag".toList, generateETag ['a', 'b']) ∈
      (handleBlobRequest false none none ['a', 'b'] (some [1, 2])
        "text/plain".toList (createErrorResponse 500 [])).headers ∧
    handleBlobRequest false (some (generateETag ['a', 'b'])) none ['a', 'b']
        (some [1, 2]) "text/plain".toList (createErrorResponse 500 []) =
      createNotModifiedResponse (generateETag ['a', 'b']) :=
  have h := c7_etag_round_trip false ['a', 'b'] (some [1, 2])
    "text/plain".toList (createErrorResponse 500 [])
    "W/\"ab\", \"zz\"".toList [1, 2]
    (by decide)
  ⟨h.1, (h.2 (by decide)).1, (h.2 (by decide)).2.1, (h.2 (by decide)).2.2⟩


/-! ## Claim C8 — range slicing on a cached blob

Decimal-rendering facts needed to parse the constructed
`bytes=<a>-<b>` header back to `(a, b)`. -/

theorem natDigitsAux_irrel : ∀ (fuelA fuelB n : Nat), n < fuelA → n < fuelB →
    natDigitsAux fuelA n = natDigitsAux fuelB n := by
  intro fuelA
  induction fuelA with
  | zero => intro fuelB n h; omega
  | succ fa ih =>
    intro fuelB n ha hb
    cases fuelB with
    | zero => omega
    | succ fb =>
      simp only [natDigitsAux]
      by_cases h10 : n < 10
      · simp [h10]
      · have hdiv : n / 10 < fa := by
          have := Nat.div_lt_self (by omega : 0 < n) (by omega : 1 < 10)
          omega
        have hdiv2 : n / 10 < fb := by
          have := Nat.div_lt_self (by omega : 0 < n) (by omega : 1 < 10)
          omega
        rw [if_neg h10, if_neg h10, ih fb (n / 10) hdiv hdiv2]

theorem natDigits_unfold (n : Nat) :
    natDigits n = if n < 10 then [digitChar n]
      else natDigits (n / 10) ++ [digitChar (n % 10)] := by
  by_cases h10 : n < 10
  · simp [natDigits, natDigitsAux, h10]
  · have hdiv : n / 10 < n := Nat.div_lt_self (by omega) (by omega)
    simp only [natDigits, natDigitsAux, h10, if_neg, if_false]
    rw [natDigitsAux_irrel n (n / 10 + 1) (n / 10) (by omega) (by omega)]
    rfl

theorem digitChar_isDigit (n : Nat) (h : n < 10) : (digitChar n).isDigit = true := by
  interval_cases n <;> decide

theorem digitChar_toNat (n : Nat) (h : n < 10) : (digitChar n).toNat = 48 + n := by
  interval_cases n <;> decide

theorem natDigits_ne_nil (n : Nat) : natDigits n ≠ [] := by
  rw [natDigits_unfold]
  split <;> simp

theorem natDigits_all_isDigit (n : Nat) : ∀ c ∈ natDigits n, c.isDigit = true := by
  induction n using Nat.strong_induction_on with
  | _ n ih =>
    rw [natDigits_unfold]
    by_cases h10 : n < 10
    · simp only [h10, if_pos, List.mem_singleton]
      intro c hc
      subst hc
      exact digitChar_isDigit n h10
    · have hdiv : n / 10 < n := Nat.div_lt_self (by omega) (by omega)
      simp only [h10, if_neg, if_false, List.mem_append, List.mem_singleton]
      intro c hc
      rcases hc with h | h
      · exact ih (n / 10) hdiv c h
      · subst h
        exact digitChar_isDigit (n % 10) (Nat.mod_lt n (by omega))

theorem digitsToNat_append_digit (s : Str) (c : Char) :
    digitsToNat (s ++ [c]) = 10 * digitsToNat s + (c.toNat - 48) := by
  simp [digitsToNat, List.foldl_append]

theorem digitsToNat_natDigits (n : Nat) : digitsToNat (natDigits n) = n := by
  induction n using Nat.strong_induction_on with
  | _ n ih =>
    rw [natDigits_unfold]
    by_cases h10 : n < 10
    · simp only [h10, if_pos]
      simp [digitsToNat, digitChar_toNat n h10]
    · have hdiv : n / 10 < n := Nat.div_lt_self (by omega) (by omega)
      simp only [h10, if_neg, if_false]
      rw [digitsToNat_append_digit, ih (n / 10) hdiv,
        digitChar_toNat (n % 10) (Nat.mod_lt n (by omega))]
      omega

theorem takeWhile_all_of_pos (p : Char → Bool) (l : Str)
    (h : ∀ c ∈ l, p c = true) : l.takeWhile p = l := by
  induction l with
  | nil => rfl
  | cons c t ih =>
    have hc := h c (by simp)
    simp [List.takeWhile_cons, hc, ih (fun x hx => h x (by simp [hx]))]

theorem takeWhile_append_stop (p : Char → Bool) (l r : Str) (d : Char)
    (hl : ∀ c ∈ l, p c = true) (hd : p d = false) :
    (l ++ d :: r).takeWhile p = l := by
  induction l with
  | nil => simp [List.takeWhile_cons, hd]
  | cons c t ih =>
    have hc := hl c (by simp)
    simp [List.takeWhile_cons, hc, ih (fun x hx => hl x (by simp [hx]))]

/-- The `Range: bytes=<a>-[<b>]` header of the claim, rendered in
decimal. -/
def mkRangeHeader (a : Nat) (b : Option Nat) : Str :=
  "bytes=".toList ++ natDigits a ++ '-' :: (b.map natDigits).getD []

theorem jsMatchRange_cons_of_match (c : Char) (rest : Str)
    (r : Nat × Option Nat) (h : matchRangeAt (c :: rest) = some r) :
    jsMatchRange (c :: rest) = some r := by
  simp [jsMatchRange, h]

theorem jsMatchRange_mkRangeHeader (a : Nat) (b : Option Nat) :
    jsMatchRange (mkRangeHeader a b) = some (a, b) := by
  have hdash : Char.isDigit '-' = false := by decide
  have hd1 := natDigits_all_isDigit a
  have hmatch : matchRangeAt (mkRangeHeader a b) = some (a, b) := by
    have htake : (mkRangeHeader a b).take 6 = "bytes=".toList := by
      simp only [mkRangeHeader, List.append_assoc]
      rw [List.take_left' (by rfl)]
    have hdrop : (mkRangeHeader a b).drop 6 =
        natDigits a ++ '-' :: (b.map natDigits).getD [] := by
      simp only [mkRangeHeader, List.append_assoc]
      rw [List.drop_left' (by rfl)]
    have hTD : takeDigits (natDigits a ++ '-' :: (b.map natDigits).getD []) =
        natDigits a :=
      takeWhile_append_stop _ _ _ _ hd1 hdash
    rw [matchRangeAt, if_pos htake, hdrop, hTD,
      if_neg (natDigits_ne_nil a), List.drop_left]
    cases b with
    | none =>
      simp [takeDigits, digitsToNat_natDigits]
    | some bv =>
      have hbv : takeDigits (natDigits bv) = natDigits bv :=
        takeWhile_all_of_pos _ _ (natDigits_all_isDigit bv)
      simp [hbv, natDigits_ne_nil bv, digitsToNat_natDigits]
  have hcr : mkRangeHeader a b =
      'b' :: ("ytes=".toList ++ (natDigits a ++ '-' :: (b.map natDigits).getD [])) := by
    rfl
  rw [hcr] at hmatch ⊢
  exact jsMatchRange_cons_of_match _ _ _ hmatch


/-- C8.  Range requests on a cached blob of size `N`: for
`bytes=a-b` with `a ≤ b < N` the response is 206 whose body is the full
200 body sliced `[a, b+1)`, with `Content-Range: bytes a-b/N` and
`Content-Length: b-a+1`; an omitted end defaults to `N-1`; and when
`a ≥ N`, `b ≥ N` or `a > b` the handler returns 416. -/
theorem c8_range_slicing (fileBytes : Bytes) (contentType : Str) (d : Str)
    (missResp : RespM) (a b : Nat) :
    (a ≤ b → b < fileBytes.length →
      handleBlobRequest false none (some (mkRangeHeader a (some b))) d
          (some fileBytes) contentType missResp =
        addCorsHeaders ⟨206,
          ((handleBlobRequest false none none d (some fileBytes) contentType
            missResp).body.drop a).take (b + 1 - a),
          [("Content-Type".toList, contentType),
           ("Content-Length".toList, natDigits (b - a + 1)),
           ("Content-Range".toList, contentRangeValue a b fileBytes.length),
           ("Accept-Ranges".toList, "bytes".toList),
           ("ETag".toList, generateETag d)] ++ cacheControlHeaders⟩) ∧
    (a < fileBytes.length →
      handleBlobRequest false none (some (mkRangeHeader a none)) d
          (some fileBytes) contentType missResp =
        addCorsHeaders ⟨206,
          ((handleBlobRequest false none none d (some fileBytes) contentType
            missResp).body.drop a).take (fileBytes.length - 1 + 1 - a),
          [("Content-Type".toList, contentType),
           ("Content-Length".toList, natDigits (fileBytes.length - 1 - a + 1)),
           ("Content-Range".toList,
             contentRangeValue a (fileBytes.length - 1) fileBytes.length),
           ("Accept-Ranges".toList, "bytes".toList),
           ("ETag".toList, generateETag d)] ++ cacheControlHeaders⟩) ∧
    (fileBytes.length ≤ a ∨ fileBytes.length ≤ b ∨ b < a →
      handleBlobRequest false none (some (mkRangeHeader a (some b))) d
          (some fileBytes) contentType missResp =
        createErrorResponse 416 "Range not satisfiable".toList) := by
  have hfull : (handleBlobRequest false none none d (some fileBytes)
      contentType missResp).body = fileBytes := by
    simp [handleBlobRequest, handleCachedFile, checkIfNoneMatch, addCorsHeaders]
  refine ⟨?_, ?_, ?_⟩
  · intro hab hbN
    have hvalid : ¬ (fileBytes.length ≤ a ∨ fileBytes.length ≤ b ∨ b < a) := by
      omega
    rw [hfull]
    simp [handleBlobRequest, handleCachedFile, checkIfNoneMatch,
      jsMatchRange_mkRangeHeader, hvalid]
  · intro haN
    have hvalid : ¬ (fileBytes.length ≤ a ∨
        fileBytes.length ≤ fileBytes.length - 1 ∨ fileBytes.length - 1 < a) := by
      omega
    rw [hfull]
    simp [handleBlobRequest, handleCachedFile, checkIfNoneMatch,
      jsMatchRange_mkRangeHeader, hvalid]
  · intro hinvalid
    simp [handleBlobRequest, handleCachedFile, checkIfNoneMatch,
      jsMatchRange_mkRangeHeader, hinvalid]

/-- C8 (witness): a six-byte blob with `bytes=1-3`, `bytes=2-` and the
unsatisfiable `bytes=10-20`. -/
theorem c8_range_slicing_witness :
    (handleBlobRequest false none (some (mkRangeHeader 1 (some 3))) ['a']
        (some [10, 20, 30, 40, 50, 60]) "text/plain".toList
        (createErrorResponse 500 []) =
      addCorsHeaders ⟨206,
        ((handleBlobRequest false none none ['a'] (some [10, 20, 30, 40, 50, 60])
          "text/plain".toList (createErrorResponse 500 [])).body.drop 1).take (3 + 1 - 1),
        [("Content-Type".toList, "text/plain".toList),
         ("Content-Length".toList, natDigits (3 - 1 + 1)),
         ("Content-Range".toList, contentRangeValue 1 3 6),
         ("Accept-Ranges".toList, "bytes".toList),
         ("ETag".toList, generateETag ['a'])] ++ cacheControlHeaders⟩) ∧
    handleBlobRequest false none (some (mkRangeHeader 10 (some 20))) ['a']
        (some [10, 20, 30, 40, 50, 60]) "text/plain".toList
        (createErrorResponse 500 []) =
      createErrorResponse 416 "Range not satisfiable".toList :=
  ⟨(c8_range_slicing [10, 20, 30, 40, 50, 60] "text/plain".toList ['a']
      (createErrorResponse 500 []) 1 3).1 (by omega) (by simp),
   (c8_range_slicing [10, 20, 30, 40, 50, 60] "text/plain".toList ['a']
      (createErrorResponse 500 []) 10 20).2.2 (by simp)⟩


/-! ## Claim C5 — LRU pruning

The specification claims ties on `last_accessed` are broken by ascending
digest; the SQL has no such tie-break — ties come out in rowid (table)
order.  `pruneCacheSpec` (defined with the model) is the specification's
rule; the counterexample separates the two. -/

/-- C5 (counterexample).  Two rows with equal `last_accessed`, the
lexicographically larger digest inserted first: the code evicts the
first-inserted row `bb` and keeps `aa`, while the specified
digest-ascending tie-break would evict `aa` and keep `bb`. -/
theorem c5_counterexample :
    pruneCache (fun _ => false) (some 7)
        ⟨[(['b', 'b'], [0, 0, 0, 0]), (['a', 'a'], [0, 0, 0, 0])],
         [⟨['b', 'b'], 5, 4, none⟩, ⟨['a', 'a'], 5, 4, none⟩]⟩ ≠
      pruneCacheSpec (fun _ => false) (some 7)
        ⟨[(['b', 'b'], [0, 0, 0, 0]), (['a', 'a'], [0, 0, 0, 0])],
         [⟨['b', 'b'], 5, 4, none⟩, ⟨['a', 'a'], 5, 4, none⟩]⟩ ∧
    (pruneCache (fun _ => false) (some 7)
        ⟨[(['b', 'b'], [0, 0, 0, 0]), (['a', 'a'], [0, 0, 0, 0])],
         [⟨['b', 'b'], 5, 4, none⟩, ⟨['a', 'a'], 5, 4, none⟩]⟩).db =
      [⟨['a', 'a'], 5, 4, none⟩] ∧
    (pruneCacheSpec (fun _ => false) (some 7)
        ⟨[(['b', 'b'], [0, 0, 0, 0]), (['a', 'a'], [0, 0, 0, 0])],
         [⟨['b', 'b'], 5, 4, none⟩, ⟨['a', 'a'], 5, 4, none⟩]⟩).db =
      [⟨['b', 'b'], 5, 4, none⟩] := by
  decide

/-- Predicate: `x` occurs strictly before `y` in `l`. -/
def precedes (l : List CacheRow) (x y : CacheRow) : Prop :=
  ∃ l1 l2 l3, l = l1 ++ x :: l2 ++ y :: l3

/-- The order `sortByLA` establishes relative to the original table:
ascending `last_accessed`, ties in table order. -/
def stableRel (l : List CacheRow) (x y : CacheRow) : Prop :=
  x.lastAccessed ≤ y.lastAccessed ∧
    (x.lastAccessed = y.lastAccessed → precedes l x y)

/-- Total size of a list of rows. -/
def sumSizes (l : List CacheRow) : Nat := (l.map (·.size)).sum

theorem insertByLA_perm (r : CacheRow) (l : List CacheRow) :
    (insertByLA r l).Perm (r :: l) := by
  induction l with
  | nil => exact List.Perm.refl _
  | cons x xs ih =>
    by_cases h : x.lastAccessed < r.lastAccessed
    · simp only [insertByLA, h, if_pos]
      exact (ih.cons x).trans (List.Perm.swap r x xs)
    · simp only [insertByLA, h, if_neg, if_false]
      exact List.Perm.refl _

theorem sortByLA_perm (l : List CacheRow) : (sortByLA l).Perm l := by
  induction l with
  | nil => exact List.Perm.refl _
  | cons x xs ih =>
    exact (insertByLA_perm x (sortByLA xs)).trans (ih.cons x)

theorem mem_sortByLA {y : CacheRow} {l : List CacheRow} :
    y ∈ sortByLA l ↔ y ∈ l := (sortByLA_perm l).mem_iff

theorem precedes_cons {l : List CacheRow} {x y z : CacheRow}
    (h : precedes l x y) : precedes (z :: l) x y := by
  obtain ⟨l1, l2, l3, rfl⟩ := h
  exact ⟨z :: l1, l2, l3, rfl⟩

theorem precedes_head {l : List CacheRow} {x y : CacheRow} (h : y ∈ l) :
    precedes (x :: l) x y := by
  obtain ⟨s, t, rfl⟩ := List.append_of_mem h
  exact ⟨[], s, t, rfl⟩

theorem pairwise_insertByLA (L : List CacheRow) (x : CacheRow) :
    ∀ s : List CacheRow, s.Pairwise (stableRel L) →
    (∀ y ∈ s, x.lastAccessed = y.lastAccessed → precedes L x y) →
    (insertByLA x s).Pairwise (stableRel L) := by
  intro s
  induction s with
  | nil =>
    intro _ _
    simp [insertByLA]
  | cons y ys ih =>
    intro hs htie
    rw [List.pairwise_cons] at hs
    by_cases h : y.lastAccessed < x.lastAccessed
    · simp only [insertByLA, h, if_pos]
      rw [List.pairwise_cons]
      constructor
      · intro w hw
        rcases List.mem_cons.mp ((insertByLA_perm x ys).mem_iff.mp hw) with hwx | hwys
        · subst hwx
          exact ⟨Nat.le_of_lt h, fun ht => absurd ht (by omega)⟩
        · exact hs.1 w hwys
      · exact ih hs.2 (fun w hw ht => htie w (by simp [hw]) ht)
    · simp only [insertByLA, h, if_neg, if_false]
      rw [List.pairwise_cons]
      constructor
      · intro w hw
        rcases List.mem_cons.mp hw with hwy | hwys
        · subst hwy
          exact ⟨Nat.le_of_not_lt h, fun ht => htie w (by simp) ht⟩
        · have hyw := hs.1 w hwys
          refine ⟨Nat.le_trans (Nat.le_of_not_lt h) hyw.1, fun ht => ?_⟩
          exact htie w (by simp [hwys]) ht
      · rw [List.pairwise_cons]
        exact hs

theorem sortByLA_pairwise (l : List CacheRow) :
    (sortByLA l).Pairwise (stableRel l) := by
  induction l with
  | nil => simp [sortByLA]
  | cons x xs ih =>
    have ih2 : (sortByLA xs).Pairwise (stableRel (x :: xs)) :=
      ih.imp (fun hab => ⟨hab.1, fun ht => precedes_cons (hab.2 ht)⟩)
    exact pairwise_insertByLA (x :: xs) x (sortByLA xs) ih2
      (fun y hy ht => precedes_head (mem_sortByLA.mp hy))


theorem pruneLoop_take (deleteFails : Str → Bool) (sizeToFree : Nat) :
    ∀ (rows : List CacheRow) (acc : Nat), ∃ k, k ≤ rows.length ∧
      (pruneLoop deleteFails sizeToFree rows acc).1 = rows.take k := by
  intro rows
  induction rows with
  | nil => intro acc; exact ⟨0, by simp, rfl⟩
  | cons row rest ih =>
    intro acc
    by_cases hstop : sizeToFree ≤ acc
    · exact ⟨0, by simp, by simp [pruneLoop, hstop]⟩
    · obtain ⟨k, hk, hkeq⟩ := ih
        (if deleteFails row.sha256 then acc else acc + row.size)
      exact ⟨k + 1, by simp [Nat.succ_le_succ hk],
        by simp [pruneLoop, hstop, hkeq]⟩

theorem pruneLoop_stop (deleteFails : Str → Bool) (sizeToFree : Nat) :
    ∀ (rows : List CacheRow) (acc : Nat),
      sizeToFree ≤ (pruneLoop deleteFails sizeToFree rows acc).2 ∨
      (pruneLoop deleteFails sizeToFree rows acc).1 = rows := by
  intro rows
  induction rows with
  | nil => intro acc; right; rfl
  | cons row rest ih =>
    intro acc
    by_cases hstop : sizeToFree ≤ acc
    · left; simp [pruneLoop, hstop]
    · rcases ih (if deleteFails row.sha256 then acc else acc + row.size) with h | h
      · left; simpa [pruneLoop, hstop] using h
      · right; simp [pruneLoop, hstop, h]

theorem pruneLoop_freed_le (deleteFails : Str → Bool) (sizeToFree : Nat) :
    ∀ (rows : List CacheRow) (acc : Nat),
      (pruneLoop deleteFails sizeToFree rows acc).2 ≤
        acc + sumSizes (pruneLoop deleteFails sizeToFree rows acc).1 := by
  intro rows
  induction rows with
  | nil => intro acc; simp [pruneLoop, sumSizes]
  | cons row rest ih =>
    intro acc
    by_cases hstop : sizeToFree ≤ acc
    · simp [pruneLoop, hstop, sumSizes]
    · have hrec := ih (if deleteFails row.sha256 then acc else acc + row.size)
      by_cases hfail : deleteFails row.sha256
      · simp only [pruneLoop, if_neg hstop, hfail, if_pos, if_true] at hrec ⊢
        simp only [sumSizes, List.map_cons, List.sum_cons] at *
        omega
      · simp only [pruneLoop, if_neg hstop, hfail, if_false, Bool.false_eq_true] at hrec ⊢
        simp only [sumSizes, List.map_cons, List.sum_cons] at *
        omega

theorem perm_sumSizes {l l' : List CacheRow} (h : l.Perm l') :
    sumSizes l = sumSizes l' := by
  simp only [sumSizes]
  exact (h.map (·.size)).sum_eq

theorem filter_not_evicted_perm (db : List CacheRow) (k : Nat)
    (hnodup : (db.map (·.sha256)).Nodup) :
    (db.filter (fun r =>
        !((((sortByLA db).take k).map (·.sha256)).contains r.sha256))).Perm
      ((sortByLA db).drop k) := by
  have hperm : (sortByLA db).Perm db := sortByLA_perm db
  have hnodup2 : ((sortByLA db).map (·.sha256)).Nodup :=
    ((hperm.map (·.sha256)).nodup_iff).mpr hnodup
  set p : CacheRow → Bool := fun r =>
    !((((sortByLA db).take k).map (·.sha256)).contains r.sha256) with hp
  have h1 : (db.filter p).Perm ((sortByLA db).filter p) :=
    (hperm.filter p).symm
  have hsplit : (sortByLA db).filter p =
      ((sortByLA db).take k).filter p ++ ((sortByLA db).drop k).filter p := by
    rw [← List.filter_append, List.take_append_drop]
  have htake : ((sortByLA db).take k).filter p = [] := by
    apply List.filter_eq_nil_iff.mpr
    intro r hr
    simp only [hp, Bool.not_eq_true', Bool.not_eq_false, List.contains,
      List.elem_iff]
    exact List.mem_map_of_mem (·.sha256) hr
  have hdisj : ∀ r ∈ (sortByLA db).drop k,
      r.sha256 ∉ (((sortByLA db).take k).map (·.sha256)) := by
    intro r hr hmem
    have hsort_map : ((sortByLA db).map (·.sha256)) =
        (((sortByLA db).take k).map (·.sha256)) ++
          (((sortByLA db).drop k).map (·.sha256)) := by
      rw [← List.map_append, List.take_append_drop]
    rw [hsort_map] at hnodup2
    have hrmem : r.sha256 ∈ (((sortByLA db).drop k).map (·.sha256)) :=
      List.mem_map_of_mem (·.sha256) hr
    exact (List.disjoint_of_nodup_append hnodup2) hmem hrmem
  have hdrop : ((sortByLA db).drop k).filter p = (sortByLA db).drop k := by
    apply List.filter_eq_self.mpr
    intro r hr
    simp only [hp, Bool.not_eq_true, Bool.not_eq_eq_eq_not, Bool.not_true,
      List.contains, List.elem_eq_mem, decide_eq_false_iff_not]
    exact hdisj r hr
  rw [hsplit, htake, hdrop, List.nil_append] at h1
  exact h1


/-- C5 (amended).  With a configured ceiling exceeded, `pruneCache`
evicts a prefix of the table sorted by ascending `last_accessed` with
ties in table (rowid) order — not digest order; every selected row is
removed from the table even when its file delete fails; eviction stops
once the freed bytes reach `current − target` (target = 90% of the
ceiling) or the table is exhausted; and immediately afterwards the total
size is at most 90% of the ceiling. -/
theorem c5_prune_amended (deleteFails : Str → Bool) (st : CacheState)
    (maxSize : Nat) (hnodup : (st.db.map (·.sha256)).Nodup)
    (hover : maxSize < getCacheSize st) :
    ∃ k, k ≤ (sortByLA st.db).length ∧
      (pruneLoop deleteFails (getCacheSize st - maxSize * 9 / 10)
        (sortByLA st.db) 0).1 = (sortByLA st.db).take k ∧
      (pruneCache deleteFails (some maxSize) st).db =
        st.db.filter (fun r =>
          !((((sortByLA st.db).take k).map (·.sha256)).contains r.sha256)) ∧
      (∀ r ∈ (sortByLA st.db).take k,
        dbHasRow (pruneCache deleteFails (some maxSize) st).db r.sha256 = false) ∧
      (∀ r ∈ (sortByLA st.db).take k,
        ∀ s_ ∈ (pruneCache deleteFails (some maxSize) st).db,
          r.lastAccessed ≤ s_.lastAccessed ∧
            (r.lastAccessed = s_.lastAccessed → precedes st.db r s_)) ∧
      (getCacheSize st - maxSize * 9 / 10 ≤
          (pruneLoop deleteFails (getCacheSize st - maxSize * 9 / 10)
            (sortByLA st.db) 0).2 ∨
        (sortByLA st.db).take k = sortByLA st.db) ∧
      10 * getCacheSize (pruneCache deleteFails (some maxSize) st) ≤
        9 * maxSize := by
  have htarget_le : maxSize * 9 / 10 ≤ maxSize := by omega
  have hnle : ¬ (getCacheSize st ≤ maxSize) := by omega
  have hfree : ¬ (getCacheSize st - maxSize * 9 / 10 = 0) := by omega
  obtain ⟨k, hk, hkeq⟩ := pruneLoop_take deleteFails
    (getCacheSize st - maxSize * 9 / 10) (sortByLA st.db) 0
  have hdb : (pruneCache deleteFails (some maxSize) st).db =
      st.db.filter (fun r =>
        !((((sortByLA st.db).take k).map (·.sha256)).contains r.sha256)) := by
    simp only [pruneCache, hnle, if_false, hfree, ite_false]
    rw [hkeq]
  have hpermdrop := filter_not_evicted_perm st.db k hnodup
  have hmem_drop : ∀ s_ ∈ (pruneCache deleteFails (some maxSize) st).db,
      s_ ∈ (sortByLA st.db).drop k := by
    intro s_ hs
    rw [hdb] at hs
    exact hpermdrop.mem_iff.mp hs
  refine ⟨k, hk, hkeq, hdb, ?_, ?_, ?_, ?_⟩
  · intro r hr
    rw [hdb]
    simp only [dbHasRow]
    rw [List.any_eq_false]
    intro x hx
    have hpx := List.of_mem_filter hx
    simp only [Bool.not_eq_true', List.contains, List.elem_eq_mem,
      decide_eq_false_iff_not] at hpx
    intro hbeq
    have hxr : x.sha256 = r.sha256 := by simpa using hbeq
    exact hpx (hxr ▸ List.mem_map_of_mem (·.sha256) hr)
  · intro r hr s_ hs
    have hsdrop := hmem_drop s_ hs
    have hpw := sortByLA_pairwise st.db
    rw [← List.take_append_drop k (sortByLA st.db), List.pairwise_append] at hpw
    exact hpw.2.2 r hr s_ hsdrop
  · rcases pruneLoop_stop deleteFails (getCacheSize st - maxSize * 9 / 10)
      (sortByLA st.db) 0 with h | h
    · exact Or.inl h
    · exact Or.inr (hkeq ▸ h)
  · have hsum_eq : getCacheSize (pruneCache deleteFails (some maxSize) st) =
        sumSizes ((sortByLA st.db).drop k) := by
      show sumSizes (pruneCache deleteFails (some maxSize) st).db = _
      rw [hdb]
      exact perm_sumSizes hpermdrop
    have hsplit : sumSizes ((sortByLA st.db).take k) +
        sumSizes ((sortByLA st.db).drop k) = getCacheSize st := by
      have h1 : sumSizes (sortByLA st.db) = getCacheSize st :=
        perm_sumSizes (sortByLA_perm st.db)
      rw [← h1, ← List.take_append_drop k (sortByLA st.db)]
      simp [sumSizes, List.take_append_drop]
    have hdivmul : maxSize * 9 / 10 * 10 ≤ maxSize * 9 :=
      Nat.div_mul_le_self (maxSize * 9) 10
    rcases pruneLoop_stop deleteFails (getCacheSize st - maxSize * 9 / 10)
      (sortByLA st.db) 0 with hfr | hall
    · have hfle := pruneLoop_freed_le deleteFails
        (getCacheSize st - maxSize * 9 / 10) (sortByLA st.db) 0
      rw [hkeq] at hfle
      rw [hsum_eq]
      omega
    · have hlen : ((sortByLA st.db).drop k) = [] := by
        have h2 := congrArg List.length (hkeq ▸ hall : (sortByLA st.db).take k = sortByLA st.db)
        rw [List.length_take] at h2
        apply List.eq_nil_of_length_eq_zero
        rw [List.length_drop]
        omega
      rw [hsum_eq, hlen]
      simp only [sumSizes, List.map_nil, List.sum_nil]
      omega


/-- C5 (amended, witness): the amended statement at the counterexample's
concrete state. -/
theorem c5_prune_amended_witness :
    ∃ k, k ≤ (sortByLA ([⟨['b', 'b'], 5, 4, none⟩, ⟨['a', 'a'], 5, 4, none⟩] :
        List CacheRow)).length ∧
      (pruneLoop (fun _ => false)
        (getCacheSize ⟨[(['b', 'b'], [0, 0, 0, 0]), (['a', 'a'], [0, 0, 0, 0])],
          [⟨['b', 'b'], 5, 4, none⟩, ⟨['a', 'a'], 5, 4, none⟩]⟩ - 7 * 9 / 10)
        (sortByLA [⟨['b', 'b'], 5, 4, none⟩, ⟨['a', 'a'], 5, 4, none⟩]) 0).1 =
        (sortByLA [⟨['b', 'b'], 5, 4, none⟩, ⟨['a', 'a'], 5, 4, none⟩]).take k ∧
      (pruneCache (fun _ => false) (some 7)
        ⟨[(['b', 'b'], [0, 0, 0, 0]), (['a', 'a'], [0, 0, 0, 0])],
         [⟨['b', 'b'], 5, 4, none⟩, ⟨['a', 'a'], 5, 4, none⟩]⟩).db =
        ([⟨['b', 'b'], 5, 4, none⟩, ⟨['a', 'a'], 5, 4, none⟩] :
          List CacheRow).filter (fun r =>
          !((((sortByLA [⟨['b', 'b'], 5, 4, none⟩, ⟨['a', 'a'], 5, 4, none⟩]).take
            k).map (·.sha256)).contains r.sha256)) ∧
      (∀ r ∈ (sortByLA [⟨['b', 'b'], 5, 4, none⟩, ⟨['a', 'a'], 5, 4, none⟩]).take k,
        dbHasRow (pruneCache (fun _ => false) (some 7)
          ⟨[(['b', 'b'], [0, 0, 0, 0]), (['a', 'a'], [0, 0, 0, 0])],
           [⟨['b', 'b'], 5, 4, none⟩, ⟨['a', 'a'], 5, 4, none⟩]⟩).db r.sha256 = false) ∧
      (∀ r ∈ (sortByLA [⟨['b', 'b'], 5, 4, none⟩, ⟨['a', 'a'], 5, 4, none⟩]).take k,
        ∀ s_ ∈ (pruneCache (fun _ => false) (some 7)
          ⟨[(['b', 'b'], [0, 0, 0, 0]), (['a', 'a'], [0, 0, 0, 0])],
           [⟨['b', 'b'], 5, 4, none⟩, ⟨['a', 'a'], 5, 4, none⟩]⟩).db,
          r.lastAccessed ≤ s_.lastAccessed ∧
            (r.lastAccessed = s_.lastAccessed →
              precedes [⟨['b', 'b'], 5, 4, none⟩, ⟨['a', 'a'], 5, 4, none⟩] r s_)) ∧
      (getCacheSize ⟨[(['b', 'b'], [0, 0, 0, 0]), (['a', 'a'], [0, 0, 0, 0])],
          [⟨['b', 'b'], 5, 4, none⟩, ⟨['a', 'a'], 5, 4, none⟩]⟩ - 7 * 9 / 10 ≤
          (pruneLoop (fun _ => false)
            (getCacheSize ⟨[(['b', 'b'], [0, 0, 0, 0]), (['a', 'a'], [0, 0, 0, 0])],
              [⟨['b', 'b'], 5, 4, none⟩, ⟨['a', 'a'], 5, 4, none⟩]⟩ - 7 * 9 / 10)
            (sortByLA [⟨['b', 'b'], 5, 4, none⟩, ⟨['a', 'a'], 5, 4, none⟩]) 0).2 ∨
        (sortByLA [⟨['b', 'b'], 5, 4, none⟩, ⟨['a', 'a'], 5, 4, none⟩]).take k =
          sortByLA [⟨['b', 'b'], 5, 4, none⟩, ⟨['a', 'a'], 5, 4, none⟩]) ∧
      10 * getCacheSize (pruneCache (fun _ => false) (some 7)
        ⟨[(['b', 'b'], [0, 0, 0, 0]), (['a', 'a'], [0, 0, 0, 0])],
         [⟨['b', 'b'], 5, 4, none⟩, ⟨['a', 'a'], 5, 4, none⟩]⟩) ≤ 9 * 7 :=
  c5_prune_amended (fun _ => false)
    ⟨[(['b', 'b'], [0, 0, 0, 0]), (['a', 'a'], [0, 0, 0, 0])],
     [⟨['b', 'b'], 5, 4, none⟩, ⟨['a', 'a'], 5, 4, none⟩]⟩ 7
    (by decide) (by decide)


end FlowerCache
